import Mathlib

/-!
Verification development for the PrintQR settings registry and QR generation glue.

The Python sources under src/pqr/main are shallowly embedded: Python strings are
Lean Strings manipulated through their underlying character lists, Python dicts
are association lists with insert-or-overwrite update, machine-level concerns do
not arise.  Each definition is a direct translation of the function of the same
name in the source.
-/

namespace PQR

/-! Models of the Python `str` operations used by the code. -/

/-- Model of Python `str.replace("_", "-")` with single-character arguments
(`helpers.snake_to_kebab`). -/
def snake_to_kebab (s : String) : String :=
  ⟨s.data.map (fun c => if c = '_' then '-' else c)⟩

/-- Model of Python `str.replace("-", "_")` with single-character arguments
(`helpers.kebab_to_snake`). -/
def kebab_to_snake (s : String) : String :=
  ⟨s.data.map (fun c => if c = '-' then '_' else c)⟩

/-- Model of Python `str.startswith`. -/
def pyStartsWith (s p : String) : Bool :=
  p.data.isPrefixOf s.data

/-- Model of Python `str.strip()`: remove leading and trailing whitespace. -/
def pyStrip (s : String) : String :=
  ⟨((s.data.dropWhile Char.isWhitespace).reverse.dropWhile Char.isWhitespace).reverse⟩

/-- Model of Python's substring containment test `sep in s`. -/
def containsSubCore (sep : List Char) : List Char → Bool
  | [] => sep.isEmpty
  | c :: rest => sep.isPrefixOf (c :: rest) || containsSubCore sep rest

/-- Model of Python `str.split(sep)` for a non-empty separator, scanning left to
right over the characters.  The fuel argument bounds the recursion by the input
length; with fuel at least the input length it computes Python's split. -/
def pySplitFuel (sep : List Char) : Nat → List Char → List (List Char)
  | _, [] => [[]]
  | 0, l => [l]
  | fuel + 1, c :: rest =>
    if sep ≠ [] ∧ sep.isPrefixOf (c :: rest) then
      -- dropping sep.length characters of c :: rest, written on rest so the
      -- recursion is structural in the fuel
      [] :: pySplitFuel sep fuel (rest.drop (sep.length - 1))
    else
      match pySplitFuel sep fuel rest with
      | [] => [[c]]
      | h :: t => (c :: h) :: t

/-- Model of Python `str.split(sep)` for a non-empty separator. -/
def pySplit (s sep : String) : List String :=
  (pySplitFuel sep.data s.data.length s.data).map (fun l => ⟨l⟩)

/-! Enums from `shared.py`. -/

/-- The `Category` enum, in declaration order. -/
inductive Category
  | filament
  | printer
  | slicer
  | misc
deriving DecidableEq

/-- The string value of each `Category` variant. -/
def Category.value : Category → String
  | .filament => "filament"
  | .printer => "printer"
  | .slicer => "slicer"
  | .misc => "misc"

/-- Iteration order of the `Category` enum. -/
def Category.all : List Category :=
  [.filament, .printer, .slicer, .misc]

/-- `Category.paths`: the four category header paths. -/
def Category.paths : List String :=
  Category.all.map (fun c => c.value ++ "-name")

/-- `Category.placeholder`: the compact-format header line for a category. -/
def Category.placeholder (c : Category) : String :=
  "[" ++ c.value ++ "]"

/-- The `Delimeter` enum (spelling as in the source). -/
inductive Delimeter
  | snake
  | kebab
deriving DecidableEq

/-- The string value of each `Delimeter` variant. -/
def Delimeter.value : Delimeter → String
  | .snake => "_"
  | .kebab => "-"

/-- The `Encoding` enum. -/
inductive Encoding
  | toml
  | compact
deriving DecidableEq

/-- The `Unit` enum of the source, renamed to avoid the core `Unit` type. -/
inductive SettingUnit
  | flow
  | length
  | temperature
deriving DecidableEq

/-- The string value of each unit variant. -/
def SettingUnit.value : SettingUnit → String
  | .flow => "mm³/s"
  | .length => "mm"
  | .temperature => "°C"

/-! Dynamic values.  Settings carry `str`, `int` or `float` payloads; floats are
modelled as rationals, no arithmetic is ever performed on them. -/

/-- The three setting types admitted by `Setting.clear` / `Setting.value`. -/
inductive SType
  | str
  | int
  | float
deriving DecidableEq

/-- A Python value stored in a setting. -/
inductive Value
  | s (x : String)
  | i (n : Int)
  | f (q : Rat)
deriving DecidableEq

/-- Python truthiness of a stored value. -/
def Value.truthy : Value → Bool
  | .s x => decide (x ≠ "")
  | .i n => decide (n ≠ 0)
  | .f q => decide (q ≠ 0)

/-- The runtime type of a stored value. -/
def Value.typeOf : Value → SType
  | .s _ => .str
  | .i _ => .int
  | .f _ => .float

/-- The zero value assigned by `Setting.clear` for each declared type. -/
def SType.zero : SType → Value
  | .str => .s ""
  | .int => .i 0
  | .float => .f 0

/-- Model of Python `str()` applied to a stored value. -/
def Value.pyStr : Value → String
  | .s x => x
  | .i n => toString n
  | .f q => toString q

/-- The `isinstance(value, str)` strip step at the top of `Setting.update`. -/
def stripIfStr : Value → Value
  | .s x => .s (pyStrip x)
  | v => v

/-! The `Setting` model (`settings.py`).  The pydantic private attribute
`_value` is an optional stored value; the declared `type` is one of the three
types supported by `Setting.clear`. -/

/-- A print setting: a named, typed, unit-aware key/value pair. -/
structure Setting where
  name : String
  category : Category
  type : SType
  compact_name : Option String
  _value : Option Value
  unit : Option SettingUnit
deriving DecidableEq

/-- `Setting.clear`: reset the stored value to the declared type's zero value. -/
def Setting.clear (st : Setting) : Setting :=
  { st with _value := some st.type.zero }

/-- `Setting.update`: strip string inputs, clear on falsy input, otherwise
store the input. -/
def Setting.update (st : Setting) (value : Value) : Setting :=
  let value := stripIfStr value
  if value.truthy then { st with _value := some value } else st.clear

/-- `Setting.build_fully_qualified_path` on the string form of the category. -/
def Setting.build_fully_qualified_path
    (category name : String) (delimeter : Delimeter) : String :=
  match delimeter with
  | .kebab => snake_to_kebab category ++ delimeter.value ++ snake_to_kebab name
  | .snake => kebab_to_snake category ++ delimeter.value ++ kebab_to_snake name

/-- `Setting.deconstruct_fully_qualified_path`: normalize the path, find the
first category whose prefix matches, and split off the name with Python's
`path.split(category_prefix)[-1]`.  `none` models the raised `InternalError`. -/
def Setting.deconstruct_fully_qualified_path
    (path : String) (delimeter : Delimeter) : Option (Category × String) :=
  let path := match delimeter with
    | .kebab => snake_to_kebab path
    | .snake => kebab_to_snake path
  (Category.all.find? (fun c => pyStartsWith path (c.value ++ delimeter.value))).map
    (fun c => (c, (pySplit path (c.value ++ delimeter.value)).getLastD ""))

/-- `Setting.path`: the fully qualified kebab path of a setting. -/
def Setting.path (st : Setting) : String :=
  Setting.build_fully_qualified_path st.category.value st.name Delimeter.kebab

/-- `Setting.value` (the property getter): the stored value when truthy,
otherwise the declared type's zero value. -/
def Setting.value (st : Setting) : Value :=
  match st._value with
  | some v => if v.truthy then v else st.type.zero
  | none => st.type.zero

/-- `Setting.value_with_unit`: the value with its unit appended (a string when
a unit is present, the raw value otherwise). -/
def Setting.value_with_unit (st : Setting) : Value :=
  match st.unit with
  | some u => .s (st.value.pyStr ++ u.value)
  | none => st.value

/-! Association lists with Python-dict semantics: assignment overwrites in
place, new keys append; lookup finds the unique binding. -/

/-- Dict assignment `d[k] = v`. -/
def assocUpdate {α β : Type} [DecidableEq α] : List (α × β) → α → β → List (α × β)
  | [], k, v => [(k, v)]
  | (k', v') :: rest, k, v =>
    if k' = k then (k, v) :: rest else (k', v') :: assocUpdate rest k v

/-- Dict lookup `d[k]` as an option. -/
def lookupA {α β : Type} [DecidableEq α] : List (α × β) → α → Option β
  | [], _ => none
  | (k', v') :: rest, k => if k' = k then some v' else lookupA rest k

/-! The template context and the compact-format templates.  A template is a
list of pieces, literal text or a `\x7bpath\x7d` field; Python's one-shot
`str.format` call renders each field from the context independently. -/

/-- The per-setting context value: the typed value rendered by `str()`, or the
placeholder `?` for falsy values (`setting.value or "?"`). -/
def Setting.ctxValue (st : Setting) : String :=
  if st.value.truthy then st.value.pyStr else "?"

/-- One iteration of the loop in `PrintSettings.to_template_context`. -/
def ctxStep (data : List (String × String)) (st : Setting) : List (String × String) :=
  let v := st.ctxValue
  let data := if st.name = "date" then assocUpdate data "date" v else data
  assocUpdate data st.path v

/-- `PrintSettings.to_template_context` over a registry in iteration order. -/
def toTemplateContext (reg : List Setting) : List (String × String) :=
  reg.foldl ctxStep []

/-- A piece of a template string: literal text or a field naming a path. -/
inductive Piece
  | lit (s : String)
  | field (path : String)

/-- Render one template piece against a context, as `str.format` does; the
fields produced by the code always name paths present in the context. -/
def renderPiece (ctx : List (String × String)) : Piece → String
  | .lit s => s
  | .field p => (lookupA ctx p).getD ""

/-- Render a template line. -/
def renderLine (ctx : List (String × String)) (l : List Piece) : String :=
  String.join (l.map (renderPiece ctx))

/-- `Setting.template_string`: a single field for the setting's path. -/
def Setting.template_string (st : Setting) : List Piece :=
  [.field st.path]

/-- `Setting.template_string_with_unit`: the field followed by the unit. -/
def Setting.template_string_with_unit (st : Setting) : List Piece :=
  match st.unit with
  | some u => [.field st.path, .lit u.value]
  | none => [.field st.path]

/-- The template line one loop iteration of `_encode_to_str_compact` appends
for a setting: headers for falsy category-name settings, nothing for other
falsy settings, and a (possibly compact-named) value template otherwise. -/
def Setting.compactTemplateLine (with_units : Bool) (st : Setting) : Option (List Piece) :=
  if st.value.truthy = false then
    if st.path ∈ Category.paths then some [.lit st.category.placeholder] else none
  else
    let vt := if with_units then st.template_string_with_unit else st.template_string
    match st.compact_name with
    | some cn => some (.lit ("  " ++ cn ++ "=") :: vt)
    | none => some vt

/-- `PrintSettings._encode_to_str_compact`: join the template lines and format
them against the template context (formatting a joined string field by field
equals rendering each line and joining). -/
def encode_to_str_compact (reg : List Setting) (with_units : Bool) : String :=
  let ctx := toTemplateContext reg
  String.intercalate "\n"
    ((reg.filterMap (Setting.compactTemplateLine with_units)).map (renderLine ctx))

/-! The structured (TOML) encoding. -/

/-- Nested dict assignment `data[cat][name] = st` used by `_to_dict`. -/
def assocUpdate2 :
    List (String × List (String × Setting)) → String → String → Setting →
      List (String × List (String × Setting))
  | [], c, n, st => [(c, [(n, st)])]
  | (c', s') :: rest, c, n, st =>
    if c' = c then (c, assocUpdate s' n st) :: rest
    else (c', s') :: assocUpdate2 rest c n st

/-- `PrintSettings._to_dict`: group the registry by category in first-seen
order; when filtering, keep only settings with a truthy value and drop
categories left empty. -/
def to_dict (reg : List Setting) (filter_empty_values : Bool) :
    List (String × List (String × Setting)) :=
  let data := reg.foldl (fun acc st => assocUpdate2 acc st.category.value st.name st) []
  if filter_empty_values = false then data
  else
    (data.map (fun p => (p.1, p.2.filter (fun q => q.2.value.truthy)))).filter
      (fun p => !p.2.isEmpty)

/-- Model of the TOML rendering of one value (`tomli_w` serializes strings
quoted and numbers bare; escaping inside strings is elided). -/
def tomlValueStr : Value → String
  | .s x => "\"" ++ x ++ "\""
  | .i n => toString n
  | .f q => toString q

/-- Model of `tomli_w.dumps` on a two-level table. -/
def tomli_w_dumps (data : List (String × List (String × Value))) : String :=
  String.intercalate "\n"
    (data.map (fun p =>
      "[" ++ p.1 ++ "]\n" ++
        String.join (p.2.map (fun q => q.1 ++ " = " ++ tomlValueStr q.2 ++ "\n"))))

/-- `PrintSettings._encode_to_str_toml`. -/
def encode_to_str_toml (reg : List Setting) (with_units filter_empty_values : Bool) :
    String :=
  tomli_w_dumps
    ((to_dict reg filter_empty_values).map (fun p =>
      (p.1, p.2.map (fun q =>
        (q.1, if with_units then q.2.value_with_unit else q.2.value)))))

/-- `PrintSettings.to_encoded_str`: dispatch on the encoding. -/
def to_encoded_str (reg : List Setting) (encoding : Encoding) (with_units : Bool) :
    String :=
  match encoding with
  | .compact => encode_to_str_compact reg with_units
  | _ => encode_to_str_toml reg with_units true

/-- `PrintSettings.dump`: the TOML encoding without units and without
filtering empty values. -/
def dump (reg : List Setting) : String :=
  encode_to_str_toml reg false false

/-! The registry (`PrintSettings`): a dict keyed by fully qualified path,
modelled as a list of settings in insertion order. -/

/-- `PrintSettings.get`: the first (unique) setting with the given path. -/
def psGet (reg : List Setting) (path : String) : Option Setting :=
  reg.find? (fun st => st.path = path)

/-- In-place mutation of the setting at a path via `Setting.update`. -/
def psSetValue : List Setting → String → Value → List Setting
  | [], _, _ => []
  | st :: rest, path, v =>
    if st.path = path then st.update v :: rest else st :: psSetValue rest path v

/-- A flattened `(category, name, value)` entry of the serialized data. -/
abbrev UpdateEntry := String × String × Value

/-- The path a data entry addresses. -/
def entryPath (e : UpdateEntry) : String :=
  Setting.build_fully_qualified_path e.1 e.2.1 Delimeter.kebab

/-- The body of the nested loops of `PrintSettings.update`: process entries in
order, raising (second component) at the first unregistered path while keeping
the mutations made so far (first component). -/
def updateFlat : List Setting → List UpdateEntry → List Setting × Option String
  | reg, [] => (reg, none)
  | reg, e :: rest =>
    match psGet reg (entryPath e) with
    | none => (reg, some (entryPath e))
    | some _ => updateFlat (psSetValue reg (entryPath e) e.2.2) rest

/-- The order in which the two nested loops of `PrintSettings.update` visit
the serialized data. -/
def flattenData (data : List (String × List (String × Value))) : List UpdateEntry :=
  data.flatMap (fun p => p.2.map (fun q => (p.1, q.1, q.2)))

/-- `PrintSettings.update` on serialized data. -/
def psUpdate (reg : List Setting) (data : List (String × List (String × Value))) :
    List Setting × Option String :=
  updateFlat reg (flattenData data)

/-- Whether a data entry addresses a registered setting of the registry. -/
def entryRegistered (reg : List Setting) (e : UpdateEntry) : Bool :=
  (psGet reg (entryPath e)).isSome

/-- Apply a list of data entries to the registry in order. -/
def applyEntries (reg : List Setting) (l : List UpdateEntry) : List Setting :=
  l.foldl (fun r e => psSetValue r (entryPath e) e.2.2) reg

/-! The caption font-size search (`qr._get_font_size`).  The PIL bounding-box
measurement is an external library call, abstracted as a width function from
font size and text to the integer bounding-box width. -/

/-- The fit test of one loop iteration: the wider line plus the border must
fit within the image width. -/
def captionFits (widthFn : Nat → String → Int)
    (image_width border_thickness : Int) (line_one line_two : String)
    (size : Nat) : Bool :=
  decide (max (widthFn size line_one) (widthFn size line_two) + border_thickness ≤ image_width)

/-- The descending search loop: try the current size, then decrement; give up
(raise `ValueError`, modelled as `none`) once the size would fall below 1. -/
def getFontSizeAux (fits : Nat → Bool) : Nat → Option Nat
  | 0 => if fits 0 then some 0 else none
  | n + 1 =>
    if fits (n + 1) then some (n + 1)
    else if n < 1 then none
    else getFontSizeAux fits n

/-- `qr._get_font_size`, starting from the configured maximum font size. -/
def get_font_size (widthFn : Nat → String → Int)
    (image_width border_thickness : Int) (line_one line_two : String)
    (font_size_max : Nat) : Option Nat :=
  getFontSizeAux (captionFits widthFn image_width border_thickness line_one line_two)
    font_size_max

/-! The save sequence of `qr.generate_and_save_qr_code` (lines 56-66): the
image write, the sibling TOML record, then the history record whose filename
is read off the `App` constants by attribute name. -/

/-- The `App` filename constants of `shared.py`, looked up by attribute name;
`none` models Python's `AttributeError`. -/
def appAttr : String → Option String
  | "NAME_CONFIG_FILE" => some "pqr.toml"
  | "NAME_HISTORY_FILE" => some "history.toml"
  | "NAME_PRINT_SETTINGS_FILE" => some "print-settings.toml"
  | _ => none

/-- The file writes performed by `generate_and_save_qr_code` after the image
is composed, paired with the error aborting the sequence, if any.  The image
payload is external and abstracted. -/
def generate_and_save_writes (reg : List Setting)
    (output_directory basename image_suffix : String) :
    List (String × String) × Option String :=
  let image_write := (output_directory ++ "/" ++ basename ++ image_suffix, "<image>")
  let config_write := (output_directory ++ "/" ++ basename ++ ".toml", dump reg)
  match appAttr "NAME_HISTORY_TOML" with
  | none => ([image_write, config_write],
      some "AttributeError: type object App has no attribute NAME_HISTORY_TOML")
  | some history_name =>
    ([image_write, config_write, ("~/.pqr/" ++ history_name, dump reg)], none)

/-! The three generate entry points (`cli.py`) and the positional arguments
they pass into the `with_units` and `encoding` parameters of
`qr.generate_and_save_qr_code`.  The values are dynamically typed. -/

/-- A dynamically typed argument: a bool flag or an encoding. -/
inductive Dyn
  | b (x : Bool)
  | e (x : Encoding)
deriving DecidableEq

/-- The arguments received by the `with_units` and `encoding` parameters of
`generate_and_save_qr_code` for one invocation. -/
structure GenCallSlots where
  with_units : Dyn
  encoding : Dyn
deriving DecidableEq

/-- The call in `run_command_generate_from_prompts` (cli.py lines 353-362),
with the resolved shared options: positions three and four receive
`args.encoding` and `args.with_units` in that order. -/
def promptsCallSlots (encoding : Encoding) (with_units : Bool) : GenCallSlots :=
  { with_units := Dyn.e encoding, encoding := Dyn.b with_units }

/-- The call in `run_command_generate_from_args` (cli.py lines 425-434). -/
def argsCallSlots (encoding : Encoding) (with_units : Bool) : GenCallSlots :=
  { with_units := Dyn.b with_units, encoding := Dyn.e encoding }

/-- The call in `run_command_generate_from_template` (cli.py lines 566-575). -/
def templateCallSlots (encoding : Encoding) (with_units : Bool) : GenCallSlots :=
  { with_units := Dyn.b with_units, encoding := Dyn.e encoding }

/-- Python truthiness of a dynamic argument (an `Encoding` member is a
non-empty string, hence truthy). -/
def dynTruthy : Dyn → Bool
  | .b x => x
  | .e _ => true

/-- Whether the `match encoding: case Encoding.COMPACT` arm of
`to_encoded_str` selects the compact branch for a dynamic argument. -/
def dynIsCompact : Dyn → Bool
  | .e Encoding.compact => true
  | _ => false

/-! Filename string transformations (`shared.StringTransformation` and
`helpers.apply_string_transformations`). -/

/-- The `StringTransformation` enum. -/
inductive StringTransformation
  | to_ascii
  | to_lowercase
  | remove_spaces
  | spaces_to_dashes
  | spaces_to_underscores
deriving DecidableEq

/-- Collapse maximal runs of characters matching the class into a single
replacement character, as the regex substitutions of the source do. -/
def collapseRuns (p : Char → Bool) (r : Char) : Bool → List Char → List Char
  | _, [] => []
  | prev, c :: rest =>
    if p c then
      if prev then collapseRuns p r true rest
      else r :: collapseRuns p r true rest
    else c :: collapseRuns p r false rest

/-- `StringTransformation.apply`.  The to-ascii case models the NFKD
normalization plus ascii-encode-ignore of the source by keeping the ASCII
characters; its caller discards the result. -/
def StringTransformation.apply (t : StringTransformation) (string : String) : String :=
  match t with
  | .to_ascii => ⟨string.data.filter (fun c => c.toNat < 128)⟩
  | .to_lowercase => string.toLower
  | .remove_spaces => ⟨string.data.filter (fun c => c ≠ ' ')⟩
  | .spaces_to_dashes =>
    ⟨collapseRuns (fun c => c.isWhitespace || c = '-') '-' false string.data⟩
  | .spaces_to_underscores =>
    ⟨collapseRuns (fun c => c.isWhitespace || c = '_') '_' false string.data⟩

/-- `helpers.apply_string_transformations`: strip the input, then loop over
the transformations; each iteration computes the transformation and discards
its result. -/
def apply_string_transformations
    (string : String) (string_transformations : List StringTransformation) : String :=
  let string := pyStrip string
  string_transformations.foldl
    (fun s string_transformation =>
      let _discarded := string_transformation.apply s
      s)
    string

/-! Further definitions used to state the claims. -/

/-- The delimiter normalization applied by `build_fully_qualified_path` to the
category and the name. -/
def normName (d : Delimeter) (s : String) : String :=
  match d with
  | .kebab => snake_to_kebab s
  | .snake => kebab_to_snake s

/-- The unit text appended to a rendered compact value when units are
requested. -/
def unitSuffix (with_units : Bool) (st : Setting) : String :=
  if with_units then (st.unit.map SettingUnit.value).getD "" else ""

/-- A mutation of one setting: `Setting.clear` or `Setting.update`. -/
inductive SettingOp
  | clearOp
  | updateOp (v : Value)
deriving DecidableEq

/-- Apply a sequence of clear and update operations to a setting. -/
def applyOps (st : Setting) : List SettingOp → Setting
  | [] => st
  | op :: rest =>
    applyOps (match op with | .clearOp => st.clear | .updateOp v => st.update v) rest

/-- The typing invariant of a setting: any stored value has the declared
type. -/
def stTyped (st : Setting) : Prop :=
  ∀ v, st._value = some v → v.typeOf = st.type

/-! A small concrete registry used to instantiate the theorems. -/

/-- Example setting: a truthy filament name with a compact name. -/
def stA : Setting :=
  { name := "name", category := Category.filament, type := SType.str,
    compact_name := some "fn", _value := some (Value.s "PLA"), unit := none }

/-- Example setting: a truthy printer temperature with a unit. -/
def stB : Setting :=
  { name := "nozzle-temperature", category := Category.printer, type := SType.int,
    compact_name := some "nt", _value := some (Value.i 210),
    unit := some SettingUnit.temperature }

/-- Example setting: an unset printer name (a category header path). -/
def stC : Setting :=
  { name := "name", category := Category.printer, type := SType.str,
    compact_name := none, _value := none, unit := none }

/-- Example setting: the date setting. -/
def stD : Setting :=
  { name := "date", category := Category.misc, type := SType.str,
    compact_name := none, _value := some (Value.s "2026-10-12"), unit := none }

/-- The example registry. -/
def regEx : List Setting :=
  [stA, stB, stC, stD]

/-! Helper lemmas about the string models. -/

lemma string_eq_of_data {s t : String} (h : s.data = t.data) : s = t := by
  cases s
  cases t
  exact congrArg String.mk h

lemma norm_append (d : Delimeter) (a b : String) :
    normName d (a ++ b) = normName d a ++ normName d b := by
  cases d <;>
    exact string_eq_of_data (by simp [normName, snake_to_kebab, kebab_to_snake,
      String.data_append])

lemma norm_idem (d : Delimeter) (s : String) :
    normName d (normName d s) = normName d s := by
  cases d <;>
    refine string_eq_of_data ?_ <;>
    · simp only [normName, snake_to_kebab, kebab_to_snake, List.map_map]
      refine List.map_congr_left (fun c _ => ?_)
      by_cases h : c = '_' <;> by_cases h' : c = '-' <;> simp [h, h', Function.comp]

lemma norm_cat (d : Delimeter) (c : Category) : normName d c.value = c.value := by
  cases d <;> cases c <;> decide

lemma norm_dval (d : Delimeter) : normName d d.value = d.value := by
  cases d <;> decide

lemma find_category_of_build (cat : Category) (d : Delimeter) (nn : String) :
    Category.all.find?
      (fun c => pyStartsWith (cat.value ++ d.value ++ nn) (c.value ++ d.value))
      = some cat := by
  cases cat <;> cases d <;>
    simp [Category.all, Category.value, Delimeter.value, List.find?, pyStartsWith,
      String.data_append, List.isPrefixOf]

lemma pySplitFuel_of_not_contains (sep : List Char) :
    ∀ (l : List Char) (fuel : Nat), containsSubCore sep l = false →
      pySplitFuel sep fuel l = [l] := by
  intro l
  induction l with
  | nil => intro fuel _; cases fuel <;> rfl
  | cons c rest ih =>
    intro fuel h
    simp [containsSubCore] at h
    cases fuel with
    | zero => rfl
    | succ fuel => simp [pySplitFuel, h.1, ih fuel h.2]

lemma pySplitFuel_prefix (c : Char) (sep' nn : List Char)
    (hn : containsSubCore (c :: sep') nn = false) (fuel : Nat) :
    pySplitFuel (c :: sep') (fuel + 1) ((c :: sep') ++ nn) = [[], nn] := by
  have hpre : List.isPrefixOf (c :: sep') (c :: (sep' ++ nn)) = true := by
    rw [show c :: (sep' ++ nn) = (c :: sep') ++ nn from rfl, List.isPrefixOf_iff_prefix]
    exact List.prefix_append _ _
  have hlen : (c :: sep').length - 1 = sep'.length := by simp
  rw [List.cons_append]
  simp only [pySplitFuel]
  rw [if_pos ⟨List.cons_ne_nil c sep', hpre⟩, hlen, List.drop_left,
    pySplitFuel_of_not_contains _ nn fuel hn]

lemma pySplit_prefix_getLast (sep nn : String) (hsep : sep.data ≠ [])
    (hn : containsSubCore sep.data nn.data = false) :
    (pySplit (sep ++ nn) sep).getLastD "" = nn := by
  obtain ⟨c, sep', hs⟩ : ∃ c s', sep.data = c :: s' := by
    cases h : sep.data with
    | nil => exact absurd h hsep
    | cons a l => exact ⟨a, l, rfl⟩
  unfold pySplit
  rw [String.data_append, hs]
  have hfuel : ((c :: sep') ++ nn.data).length = (sep'.length + nn.data.length) + 1 := by
    simp [List.length_append]
  rw [hfuel, pySplitFuel_prefix c sep' nn.data (hs ▸ hn)]
  simp

lemma deconstruct_eval (p : String) (d : Delimeter) :
    Setting.deconstruct_fully_qualified_path p d =
      (Category.all.find?
        (fun c => pyStartsWith (normName d p) (c.value ++ d.value))).map
        (fun c => (c, (pySplit (normName d p) (c.value ++ d.value)).getLastD "")) := by
  cases d <;> rfl

lemma build_eval (c n : String) (d : Delimeter) :
    Setting.build_fully_qualified_path c n d = normName d c ++ d.value ++ normName d n := by
  cases d <;> rfl

/-! C4: the build/deconstruct roundtrip. -/

/-- C4 (counterexample): for the category `filament`, the non-empty name
`filament-x` and the kebab delimiter, deconstructing the built path does not
return the (normalization of the) original name: Python's
`path.split(category_prefix)[-1]` keeps only the text after the last
occurrence of the prefix, so the name comes back as `x`. -/
theorem claim_C4_counterexample :
    Setting.deconstruct_fully_qualified_path
        (Setting.build_fully_qualified_path Category.filament.value "filament-x"
          Delimeter.kebab)
        Delimeter.kebab
      = some (Category.filament, "x")
    ∧ normName Delimeter.kebab "filament-x" ≠ "x"
    ∧ "filament-x" ≠ "" := by
  decide

/-- C4 (amended): for every category, every non-empty name and either
delimiter, deconstructing the built fully-qualified path returns the original
category and the delimiter-normalized original name, provided the normalized
name does not contain the `<category><delimiter>` prefix as a substring. -/
theorem claim_C4_roundtrip (cat : Category) (name : String) (d : Delimeter)
    (hne : name ≠ "")
    (hsub : containsSubCore (cat.value ++ d.value).data (normName d name).data = false) :
    Setting.deconstruct_fully_qualified_path
        (Setting.build_fully_qualified_path cat.value name d) d
      = some (cat, normName d name) := by
  have _hne := hne
  have hbuild : Setting.build_fully_qualified_path cat.value name d
      = cat.value ++ d.value ++ normName d name := by
    rw [build_eval, norm_cat]
  have hnorm : normName d (cat.value ++ d.value ++ normName d name)
      = cat.value ++ d.value ++ normName d name := by
    rw [norm_append, norm_append, norm_idem, norm_cat, norm_dval]
  have hsep : (cat.value ++ d.value).data ≠ [] := by
    cases cat <;> cases d <;> decide
  rw [deconstruct_eval, hbuild, hnorm, find_category_of_build]
  show some (cat, (pySplit (cat.value ++ d.value ++ normName d name)
    (cat.value ++ d.value)).getLastD "") = some (cat, normName d name)
  rw [pySplit_prefix_getLast _ _ hsep hsub]

/-- C4 (witness): the amended roundtrip at a concrete category and name. -/
theorem claim_C4_roundtrip_witness :
    ("abc_d" ≠ ""
      ∧ containsSubCore (Category.filament.value ++ Delimeter.kebab.value).data
          (normName Delimeter.kebab "abc_d").data = false)
    ∧ Setting.deconstruct_fully_qualified_path
        (Setting.build_fully_qualified_path Category.filament.value "abc_d"
          Delimeter.kebab)
        Delimeter.kebab
      = some (Category.filament, normName Delimeter.kebab "abc_d") :=
  ⟨⟨by decide, by decide⟩,
    claim_C4_roundtrip Category.filament "abc_d" Delimeter.kebab (by decide) (by decide)⟩

/-! C9: the filename transformations are computed but discarded. -/

/-- C9: for every input string and every list of filename transformations,
applying the transformations returns the stripped input unchanged: every
individual transformation result is discarded. -/
theorem claim_C9_transformations_discarded
    (string : String) (string_transformations : List StringTransformation) :
    apply_string_transformations string string_transformations = pyStrip string := by
  have hgen : ∀ (ts : List StringTransformation) (init : String),
      ts.foldl
        (fun s string_transformation =>
          let _discarded := string_transformation.apply s
          s)
        init = init := by
    intro ts
    induction ts with
    | nil => intro init; rfl
    | cons t ts ih => intro init; exact ih init
  exact hgen string_transformations (pyStrip string)

/-! C7: the arguments the three generate commands pass into
`generate_and_save_qr_code`. -/

/-- C7 (code bug): the template and args entry styles pass the resolved
encoding into the `encoding` parameter and the units flag into the
`with_units` parameter, but the prompts entry style passes them in swapped
positions; on the swapped values the compact dispatch can never match and the
units flag is always truthy. -/
theorem claim_C7_prompts_swaps_units_and_encoding :
    templateCallSlots Encoding.compact false
      = { with_units := Dyn.b false, encoding := Dyn.e Encoding.compact }
    ∧ argsCallSlots Encoding.compact false
      = { with_units := Dyn.b false, encoding := Dyn.e Encoding.compact }
    ∧ promptsCallSlots Encoding.compact false
      ≠ { with_units := Dyn.b false, encoding := Dyn.e Encoding.compact }
    ∧ dynIsCompact (promptsCallSlots Encoding.compact false).encoding = false
    ∧ dynTruthy (promptsCallSlots Encoding.compact false).with_units = true := by
  refine ⟨rfl, rfl, by decide, rfl, rfl⟩

/-! C6: the save sequence of `generate_and_save_qr_code`. -/

/-- C6 (code bug): for every registry state, the composed image and the
sibling TOML record (the unfiltered, unit-free dump) are written, but the
history write then raises an `AttributeError`: the `App` class has no
`NAME_HISTORY_TOML` attribute (the constant is named `NAME_HISTORY_FILE`), so
no history record is ever written. -/
theorem claim_C6_history_write_raises (reg : List Setting)
    (output_directory basename image_suffix : String) :
    generate_and_save_writes reg output_directory basename image_suffix
      = ([(output_directory ++ "/" ++ basename ++ image_suffix, "<image>"),
          (output_directory ++ "/" ++ basename ++ ".toml", dump reg)],
         some "AttributeError: type object App has no attribute NAME_HISTORY_TOML") :=
  rfl

/-! C1: the caption font-size search. -/

lemma getFontSizeAux_some (fits : Nat → Bool) :
    ∀ (n r : Nat), getFontSizeAux fits n = some r →
      fits r = true ∧ r ≤ n ∧ ∀ s, r < s → s ≤ n → fits s = false := by
  intro n
  induction n with
  | zero =>
    intro r h
    by_cases hf : fits 0 = true
    · simp [getFontSizeAux, hf] at h
      subst h
      exact ⟨hf, Nat.le_refl 0, fun s hs hs' => by omega⟩
    · simp [getFontSizeAux, hf] at h
  | succ n ih =>
    intro r h
    by_cases hf : fits (n + 1) = true
    · simp [getFontSizeAux, hf] at h
      subst h
      exact ⟨hf, Nat.le_refl _, fun s hs hs' => by omega⟩
    · by_cases hn : n < 1
      · simp [getFontSizeAux, hf, hn] at h
      · simp [getFontSizeAux, hf, hn] at h
        obtain ⟨h1, h2, h3⟩ := ih r h
        refine ⟨h1, by omega, fun s hs hs' => ?_⟩
        by_cases hsn : s ≤ n
        · exact h3 s hs hsn
        · have : s = n + 1 := by omega
          subst this
          simpa using hf

lemma getFontSizeAux_pos (fits : Nat → Bool) :
    ∀ (n r : Nat), 1 ≤ n → getFontSizeAux fits n = some r → 1 ≤ r := by
  intro n
  induction n with
  | zero => omega
  | succ n ih =>
    intro r _ h
    by_cases hf : fits (n + 1) = true
    · simp [getFontSizeAux, hf] at h
      omega
    · by_cases hn : n < 1
      · simp [getFontSizeAux, hf, hn] at h
      · simp [getFontSizeAux, hf, hn] at h
        exact ih r (by omega) h

lemma getFontSizeAux_none (fits : Nat → Bool) :
    ∀ (n : Nat), 1 ≤ n →
      (getFontSizeAux fits n = none ↔ ∀ s, 1 ≤ s → s ≤ n → fits s = false) := by
  intro n
  induction n with
  | zero => omega
  | succ n ih =>
    intro _
    by_cases hf : fits (n + 1) = true
    · simp [getFontSizeAux, hf]
      exact ⟨n + 1, by omega, by omega, hf⟩
    · by_cases hn : n < 1
      · simp [getFontSizeAux, hf, hn]
        intro s h1 h2
        have : s = n + 1 := by omega
        subst this
        simpa using hf
      · have hstep : getFontSizeAux fits (n + 1) = getFontSizeAux fits n := by
          simp [getFontSizeAux, hf, hn]
        rw [hstep, ih (by omega)]
        constructor
        · intro h s h1 h2
          by_cases hsn : s ≤ n
          · exact h s h1 hsn
          · have : s = n + 1 := by omega
            subst this
            simpa using hf
        · exact fun h s h1 h2 => h s h1 (by omega)

/-- C1: for every abstract width measurement, image width, border thickness,
caption line pair and positive configured maximum, the descending font-size
search returns the largest size not exceeding the maximum whose wider line
plus border fits the image width, and it errors exactly when no size of at
least 1 fits. -/
theorem claim_C1_font_size_search (widthFn : Nat → String → Int)
    (image_width border_thickness : Int) (line_one line_two : String)
    (font_size_max : Nat) (hmax : 1 ≤ font_size_max) :
    (∀ r, get_font_size widthFn image_width border_thickness line_one line_two
        font_size_max = some r →
      1 ≤ r ∧ r ≤ font_size_max
        ∧ captionFits widthFn image_width border_thickness line_one line_two r = true
        ∧ ∀ s, r < s → s ≤ font_size_max →
            captionFits widthFn image_width border_thickness line_one line_two s = false)
    ∧ (get_font_size widthFn image_width border_thickness line_one line_two
          font_size_max = none
        ↔ ∀ s, 1 ≤ s → s ≤ font_size_max →
            captionFits widthFn image_width border_thickness line_one line_two s = false) := by
  constructor
  · intro r h
    obtain ⟨h1, h2, h3⟩ := getFontSizeAux_some _ _ _ h
    exact ⟨getFontSizeAux_pos _ _ _ hmax h, h2, h1, h3⟩
  · exact getFontSizeAux_none _ _ hmax

/-- C1 (witness): the search at a concrete linear width measurement. -/
theorem claim_C1_font_size_search_witness :
    (1 ≤ (10 : Nat))
    ∧ (1 ≤ 5 ∧ 5 ≤ 10
        ∧ captionFits (fun s _ => (s : Int)) 5 0 "a" "b" 5 = true) := by
  have h := (claim_C1_font_size_search (fun s _ => (s : Int)) 5 0 "a" "b" 10
    (by decide)).1 5 (by decide)
  exact ⟨by decide, h.1, h.2.1, h.2.2.1⟩

/-! C2: the two serializations and the TOML filtering. -/

/-- C2: encoding dispatches to exactly the compact line-oriented serialization
for the compact encoding and to the structured TOML serialization with
empty-value filtering for every other encoding, and the filtered grouped
dictionary contains only settings with truthy values and no empty
categories. -/
theorem claim_C2_encoding_dispatch_and_filter (reg : List Setting) (with_units : Bool) :
    to_encoded_str reg Encoding.compact with_units = encode_to_str_compact reg with_units
    ∧ to_encoded_str reg Encoding.toml with_units = encode_to_str_toml reg with_units true
    ∧ encode_to_str_toml reg with_units true
        = tomli_w_dumps ((to_dict reg true).map (fun p =>
            (p.1, p.2.map (fun q =>
              (q.1, if with_units then q.2.value_with_unit else q.2.value)))))
    ∧ (to_dict reg true).all
        (fun p => !p.2.isEmpty && p.2.all (fun q => q.2.value.truthy)) = true := by
  refine ⟨rfl, rfl, rfl, ?_⟩
  rw [List.all_eq_true]
  intro p hp
  simp only [to_dict] at hp
  rw [if_neg (by simp)] at hp
  rw [List.mem_filter] at hp
  obtain ⟨hmap, hfil⟩ := hp
  rw [List.mem_map] at hmap
  obtain ⟨p0, _, rfl⟩ := hmap
  simp only [Bool.and_eq_true]
  refine ⟨hfil, ?_⟩
  rw [List.all_eq_true]
  intro q hq
  exact (List.mem_filter.mp hq).2

/-! C5: error semantics of `PrintSettings.update`. -/

lemma update_path (st : Setting) (v : Value) : (st.update v).path = st.path := by
  simp only [Setting.update, Setting.clear]
  split <;> rfl

lemma psSetValue_map_path (reg : List Setting) (p : String) (v : Value) :
    (psSetValue reg p v).map Setting.path = reg.map Setting.path := by
  induction reg with
  | nil => rfl
  | cons st rest ih =>
    simp only [psSetValue]
    by_cases h : st.path = p
    · simp [h, update_path]
    · simp [h, ih]

lemma psGet_isSome_iff (reg : List Setting) (p : String) :
    (psGet reg p).isSome = true ↔ p ∈ reg.map Setting.path := by
  constructor
  · intro h
    obtain ⟨st, hmem, hp⟩ := List.find?_isSome.mp h
    exact List.mem_map.mpr ⟨st, hmem, of_decide_eq_true hp⟩
  · intro h
    obtain ⟨st, hmem, hp⟩ := List.mem_map.mp h
    exact List.find?_isSome.mpr ⟨st, hmem, decide_eq_true hp⟩

lemma entryRegistered_psSetValue (reg : List Setting) (p : String) (v : Value)
    (e : UpdateEntry) :
    entryRegistered (psSetValue reg p v) e = entryRegistered reg e := by
  rw [Bool.eq_iff_iff]
  unfold entryRegistered
  rw [psGet_isSome_iff, psGet_isSome_iff, psSetValue_map_path]

lemma updateFlat_spec (l : List UpdateEntry) : ∀ reg : List Setting,
    updateFlat reg l
      = (applyEntries reg (l.takeWhile (entryRegistered reg)),
         (l.dropWhile (entryRegistered reg)).head?.map entryPath) := by
  induction l with
  | nil => intro reg; rfl
  | cons e rest ih =>
    intro reg
    by_cases h : entryRegistered reg e = true
    · obtain ⟨s, hs⟩ := Option.isSome_iff_exists.mp h
      have hfun : entryRegistered (psSetValue reg (entryPath e) e.2.2)
          = entryRegistered reg :=
        funext (fun x => entryRegistered_psSetValue reg (entryPath e) e.2.2 x)
      rw [show updateFlat reg (e :: rest)
          = updateFlat (psSetValue reg (entryPath e) e.2.2) rest from by
        simp [updateFlat, hs]]
      rw [ih, hfun, List.takeWhile_cons_of_pos h, List.dropWhile_cons_of_pos h]
      rfl
    · have hnone : psGet reg (entryPath e) = none := by
        have := Option.not_isSome_iff_eq_none.mp (by simpa [entryRegistered] using h)
        exact this
      rw [show updateFlat reg (e :: rest) = (reg, some (entryPath e)) from by
        simp [updateFlat, hnone]]
      rw [List.takeWhile_cons_of_neg (by simpa using h),
        List.dropWhile_cons_of_neg (by simpa using h)]
      rfl

/-- C5: updating from serialized data raises exactly when some entry addresses
an unregistered category+name pair, the raised error names the first offending
path, and (raising or not) the registry equals the fold of the updates of all
entries before the first offending one: mutations made before the failure are
kept. -/
theorem claim_C5_update_error_semantics (reg : List Setting)
    (data : List (String × List (String × Value))) :
    (psUpdate reg data).1
        = applyEntries reg ((flattenData data).takeWhile (entryRegistered reg))
    ∧ (psUpdate reg data).2
        = ((flattenData data).dropWhile (entryRegistered reg)).head?.map entryPath
    ∧ ((psUpdate reg data).2 ≠ none
        ↔ ∃ e ∈ flattenData data, entryRegistered reg e = false) := by
  have h := updateFlat_spec (flattenData data) reg
  refine ⟨by rw [psUpdate, h], by rw [psUpdate, h], ?_⟩
  rw [psUpdate, h]
  have hiff : (((flattenData data).dropWhile (entryRegistered reg)).head?.map entryPath
        = none)
      ↔ ∀ e ∈ flattenData data, entryRegistered reg e = true := by
    rw [Option.map_eq_none', List.head?_eq_none_iff, List.dropWhile_eq_nil_iff]
  constructor
  · intro hne
    by_contra hng
    push_neg at hng
    exact hne (hiff.mpr (fun e he => by
      have := hng e he
      simpa using this))
  · rintro ⟨e, he, hef⟩ hcontra
    have := hiff.mp hcontra e he
    rw [this] at hef
    exact Bool.noConfusion hef

/-! C8: settings stay typed. -/

lemma typeOf_zero (t : SType) : t.zero.typeOf = t := by
  cases t <;> rfl

lemma zero_truthy (t : SType) : t.zero.truthy = false := by
  cases t <;> decide

lemma truthy_stripIfStr (v : Value) (h : (stripIfStr v).truthy = true) :
    v.truthy = true := by
  cases v with
  | s x =>
    simp only [stripIfStr, Value.truthy, decide_eq_true_eq] at h ⊢
    intro hx
    subst hx
    exact h rfl
  | i n => exact h
  | f q => exact h

lemma typeOf_stripIfStr (v : Value) : (stripIfStr v).typeOf = v.typeOf := by
  cases v <;> rfl

lemma update_type (st : Setting) (v : Value) : (st.update v).type = st.type := by
  simp only [Setting.update, Setting.clear]
  split <;> rfl

lemma update_falsy (st : Setting) (v : Value) (h : (stripIfStr v).truthy = false) :
    st.update v = st.clear := by
  simp [Setting.update, h]

lemma clear_value (st : Setting) : st.clear.value = st.type.zero := by
  simp [Setting.clear, Setting.value, zero_truthy]

lemma stTyped_clear (st : Setting) : stTyped st.clear := by
  intro v hv
  have hv' : some st.type.zero = some v := hv
  injection hv' with h2
  rw [← h2]
  exact typeOf_zero st.type

lemma stTyped_update (st : Setting) (v : Value) (hty : stTyped st)
    (hv : v.truthy = true → v.typeOf = st.type) : stTyped (st.update v) := by
  have _hty := hty
  show stTyped (if (stripIfStr v).truthy then { st with _value := some (stripIfStr v) }
    else st.clear)
  by_cases h : (stripIfStr v).truthy = true
  · rw [if_pos h]
    intro w hw
    have hw' : some (stripIfStr v) = some w := hw
    injection hw' with h2
    rw [← h2]
    show (stripIfStr v).typeOf = st.type
    rw [typeOf_stripIfStr]
    exact hv (truthy_stripIfStr v h)
  · rw [if_neg h]
    exact stTyped_clear st

lemma applyOps_type (ops : List SettingOp) : ∀ st : Setting,
    (applyOps st ops).type = st.type := by
  induction ops with
  | nil => intro st; rfl
  | cons op rest ih =>
    intro st
    cases op with
    | clearOp =>
      rw [show applyOps st (SettingOp.clearOp :: rest) = applyOps st.clear rest from rfl,
        ih]
      rfl
    | updateOp v =>
      rw [show applyOps st (SettingOp.updateOp v :: rest) = applyOps (st.update v) rest
        from rfl, ih, update_type]

lemma applyOps_typed (ops : List SettingOp) : ∀ st : Setting, stTyped st →
    (∀ v, SettingOp.updateOp v ∈ ops → v.truthy = true → v.typeOf = st.type) →
    stTyped (applyOps st ops) := by
  induction ops with
  | nil => intro st h _; exact h
  | cons op rest ih =>
    intro st h hops
    cases op with
    | clearOp =>
      refine ih st.clear (stTyped_clear st) ?_
      intro v hv htr
      rw [show st.clear.type = st.type from rfl]
      exact hops v (by simp [hv]) htr
    | updateOp v =>
      refine ih (st.update v)
        (stTyped_update st v h (fun htr => hops v (by simp) htr)) ?_
      intro w hw htr
      rw [update_type]
      exact hops w (by simp [hw]) htr

lemma value_typeOf (st : Setting) (h : stTyped st) : st.value.typeOf = st.type := by
  unfold Setting.value
  cases hv : st._value with
  | none => exact typeOf_zero st.type
  | some v =>
    by_cases htr : v.truthy = true
    · simpa [htr] using h v hv
    · simp only [htr]
      simp [typeOf_zero]

/-- C8: for every setting whose construction respects the declared type and
every sequence of clear and update operations whose non-falsy inputs have the
declared type, the read value keeps the declared type and the declared type
itself never changes; clearing, or updating with an input that is falsy after
stripping (blank or whitespace-only strings included), resets the value to the
declared type's zero value. -/
theorem claim_C8_settings_stay_typed (st : Setting) (ops : List SettingOp)
    (h0 : stTyped st)
    (hops : ∀ v, SettingOp.updateOp v ∈ ops → v.truthy = true → v.typeOf = st.type) :
    (applyOps st ops).value.typeOf = st.type
    ∧ (applyOps st ops).type = st.type
    ∧ st.clear.value = st.type.zero
    ∧ ∀ v, (stripIfStr v).truthy = false → (st.update v).value = st.type.zero := by
  refine ⟨?_, applyOps_type ops st, clear_value st, ?_⟩
  · rw [value_typeOf _ (applyOps_typed ops st h0 hops), applyOps_type]
  · intro v hv
    rw [update_falsy st v hv, clear_value]

/-- C8 (witness): a concrete string setting through an update-clear-update
sequence, with a blank update resetting to the zero value. -/
theorem claim_C8_settings_stay_typed_witness :
    (applyOps stC [SettingOp.updateOp (Value.s " PLA "), SettingOp.clearOp,
        SettingOp.updateOp (Value.s "x")]).value.typeOf = stC.type
    ∧ stC.clear.value = stC.type.zero
    ∧ (stC.update (Value.s "  ")).value = stC.type.zero := by
  have h := claim_C8_settings_stay_typed stC
    [SettingOp.updateOp (Value.s " PLA "), SettingOp.clearOp,
      SettingOp.updateOp (Value.s "x")]
    (fun v hv => by exact absurd hv (by simp [stC]))
    (fun v hv htr => by
      simp only [List.mem_cons, List.not_mem_nil, or_false] at hv
      rcases hv with h1 | h1 | h1
      · injection h1 with h2; subst h2; rfl
      · exact SettingOp.noConfusion h1
      · injection h1 with h2; subst h2; rfl)
  exact ⟨h.1, h.2.2.1, h.2.2.2 (Value.s "  ") (by decide)⟩

/-! Lemmas about the template context. -/

lemma lookupA_assocUpdate {β : Type} (l : List (String × β)) (k k' : String) (v : β) :
    lookupA (assocUpdate l k v) k' = if k = k' then some v else lookupA l k' := by
  induction l with
  | nil =>
    by_cases h : k = k' <;> simp [assocUpdate, lookupA, h]
  | cons p rest ih =>
    obtain ⟨a, b⟩ := p
    by_cases hak : a = k
    · subst hak
      by_cases h : a = k' <;> simp [assocUpdate, lookupA, h]
    · simp only [assocUpdate, if_neg hak]
      by_cases hk' : a = k'
      · subst hk'
        rw [if_neg (fun hh => hak hh.symm)]
        simp [lookupA]
      · simp [lookupA, hk', ih]

lemma ctxStep_lookup (data : List (String × String)) (st : Setting) (key : String) :
    lookupA (ctxStep data st) key =
      if st.path = key then some st.ctxValue
      else if st.name = "date" ∧ key = "date" then some st.ctxValue
      else lookupA data key := by
  simp only [ctxStep]
  rw [lookupA_assocUpdate]
  by_cases hp : st.path = key
  · rw [if_pos hp, if_pos hp]
  · rw [if_neg hp, if_neg hp]
    by_cases hd : st.name = "date"
    · rw [if_pos hd, lookupA_assocUpdate]
      by_cases hk : key = "date"
      · rw [if_pos hk.symm, if_pos ⟨hd, hk⟩]
      · rw [if_neg (fun hh => hk hh.symm), if_neg (fun hh => hk hh.2)]
    · rw [if_neg hd, if_neg (fun hh : st.name = "date" ∧ key = "date" => hd hh.1)]

lemma ctx_no_writes (reg : List Setting) : ∀ (data : List (String × String)) (key : String),
    (∀ st ∈ reg, st.path ≠ key ∧ ¬(st.name = "date" ∧ key = "date")) →
    lookupA (reg.foldl ctxStep data) key = lookupA data key := by
  induction reg with
  | nil => intro data key _; rfl
  | cons a rest ih =>
    intro data key h
    rw [List.foldl_cons, ih _ _ (fun st hst => h st (List.mem_cons_of_mem a hst)),
      ctxStep_lookup, if_neg (h a (List.mem_cons_self a rest)).1,
      if_neg (h a (List.mem_cons_self a rest)).2]

lemma snake_to_kebab_length (s : String) : (snake_to_kebab s).length = s.length := by
  show (s.data.map (fun c => if c = '_' then '-' else c)).length = s.data.length
  simp

lemma path_length (st : Setting) :
    st.path.length = st.category.value.length + 1 + st.name.length := by
  simp only [Setting.path, Setting.build_fully_qualified_path, String.length_append,
    snake_to_kebab_length]
  have : (Delimeter.kebab.value).length = 1 := rfl
  omega

lemma path_ne_date (st : Setting) : st.path ≠ "date" := by
  intro h
  have hlen := congrArg String.length h
  rw [path_length] at hlen
  have hc : 4 ≤ st.category.value.length := by cases st.category <;> decide
  have hd : ("date" : String).length = 4 := rfl
  omega

lemma lookup_ctx_path (reg : List Setting) : ∀ (data : List (String × String))
    (st : Setting), (reg.map Setting.path).Nodup → st ∈ reg →
    lookupA (reg.foldl ctxStep data) st.path = some st.ctxValue := by
  induction reg with
  | nil => intro data st _ hmem; exact absurd hmem (List.not_mem_nil st)
  | cons a rest ih =>
    intro data st hnd hmem
    rw [List.map_cons, List.nodup_cons] at hnd
    obtain ⟨hnotin, hnd'⟩ := hnd
    rw [List.foldl_cons]
    rcases List.mem_cons.mp hmem with rfl | hmem'
    · have hw : ∀ u ∈ rest, u.path ≠ st.path ∧ ¬(u.name = "date" ∧ st.path = "date") := by
        intro u hu
        refine ⟨?_, ?_⟩
        · intro hequ
          exact hnotin (hequ ▸ List.mem_map_of_mem Setting.path hu)
        · rintro ⟨_, hk⟩
          exact path_ne_date st hk
      rw [ctx_no_writes rest _ _ hw, ctxStep_lookup, if_pos rfl]
    · exact ih _ st hnd' hmem'

lemma lookup_ctx_date (reg : List Setting) : ∀ (data : List (String × String))
    (st : Setting), (reg.map Setting.path).Nodup → st ∈ reg → st.name = "date" →
    (∀ u ∈ reg, u.name = "date" → u = st) →
    lookupA (reg.foldl ctxStep data) "date" = some st.ctxValue := by
  induction reg with
  | nil => intro data st _ hmem; exact absurd hmem (List.not_mem_nil st)
  | cons a rest ih =>
    intro data st hnd hmem hname huniq
    rw [List.map_cons, List.nodup_cons] at hnd
    obtain ⟨hnotin, hnd'⟩ := hnd
    rw [List.foldl_cons]
    by_cases hast : a = st
    · subst hast
      have hw : ∀ u ∈ rest, u.path ≠ "date" ∧ ¬(u.name = "date" ∧ ("date" : String) = "date") := by
        intro u hu
        refine ⟨path_ne_date u, ?_⟩
        rintro ⟨hun, _⟩
        have hua := huniq u (List.mem_cons_of_mem a hu) hun
        exact hnotin (hua ▸ List.mem_map_of_mem Setting.path hu)
      rw [ctx_no_writes rest _ _ hw, ctxStep_lookup, if_neg (path_ne_date a),
        if_pos ⟨hname, rfl⟩]
    · have hmem' : st ∈ rest := by
        rcases List.mem_cons.mp hmem with h | h
        · exact absurd h.symm hast
        · exact h
      exact ih _ st hnd' hmem' hname
        (fun u hu hun => huniq u (List.mem_cons_of_mem a hu) hun)

lemma string_foldl_append (l : List String) : ∀ acc : String,
    l.foldl (fun r s => r ++ s) acc = acc ++ l.foldl (fun r s => r ++ s) "" := by
  induction l with
  | nil => intro acc; simp [List.foldl]
  | cons a l ih =>
    intro acc
    simp only [List.foldl]
    rw [ih (acc ++ a), ih ("" ++ a), String.empty_append, String.append_assoc]

lemma renderLine_cons (ctx : List (String × String)) (p : Piece) (l : List Piece) :
    renderLine ctx (p :: l) = renderPiece ctx p ++ renderLine ctx l := by
  simp only [renderLine, List.map_cons, String.join, List.foldl_cons]
  rw [string_foldl_append _ ("" ++ renderPiece ctx p), String.empty_append]

lemma renderLine_nil (ctx : List (String × String)) : renderLine ctx [] = "" := rfl

/-! C10: the template context contents. -/

/-- C10: in the template context of a registry with distinct paths, every
member setting is mapped under its fully-qualified path, a falsy setting is
mapped to the placeholder string, the (unique) date-named setting is
additionally available under the bare key `date`, and the date setting of the
misc category has the full path `misc-date`. -/
theorem claim_C10_template_context (reg : List Setting) (st : Setting)
    (hnd : (reg.map Setting.path).Nodup) (hmem : st ∈ reg) :
    lookupA (toTemplateContext reg) st.path = some st.ctxValue
    ∧ (st.value.truthy = false → lookupA (toTemplateContext reg) st.path = some "?")
    ∧ (st.name = "date" → (∀ u ∈ reg, u.name = "date" → u = st) →
        lookupA (toTemplateContext reg) "date" = some st.ctxValue)
    ∧ (st.name = "date" → st.category = Category.misc → st.path = "misc-date") := by
  unfold toTemplateContext
  refine ⟨lookup_ctx_path reg [] st hnd hmem, ?_, ?_, ?_⟩
  · intro hf
    rw [lookup_ctx_path reg [] st hnd hmem]
    simp [Setting.ctxValue, hf]
  · intro h1 h2
    exact lookup_ctx_date reg [] st hnd hmem h1 h2
  · intro h1 h2
    show Setting.build_fully_qualified_path st.category.value st.name Delimeter.kebab
      = "misc-date"
    rw [h1, h2]
    decide

/-- C10 (witness): the context of the example registry maps the falsy printer
name to the placeholder and the date setting under both keys. -/
theorem claim_C10_template_context_witness :
    ((regEx.map Setting.path).Nodup ∧ stD ∈ regEx ∧ stC ∈ regEx)
    ∧ lookupA (toTemplateContext regEx) "date" = some "2026-10-12"
    ∧ lookupA (toTemplateContext regEx) "printer-name" = some "?"
    ∧ stD.path = "misc-date" := by
  have hD := claim_C10_template_context regEx stD (by decide) (by decide)
  have hC := claim_C10_template_context regEx stC (by decide) (by decide)
  refine ⟨⟨by decide, by decide, by decide⟩, ?_, ?_, ?_⟩
  · exact (hD.2.2.1 rfl (by decide)).trans (by decide)
  · exact hC.2.1 (by decide)
  · exact hD.2.2.2 rfl rfl

/-! C3: the compact encoding, line by line. -/

/-- C3: the compact encoding joins, with newlines, one rendered line per
contributing setting in registry order: a falsy setting contributes nothing
unless its path is a category header path, in which case it contributes the
placeholder line; a truthy setting with a compact name contributes two spaces,
the compact name, an equals sign and its rendered value (unit appended when
units are requested); and a truthy setting without a compact name contributes
its bare rendered value. -/
theorem claim_C3_compact_lines (reg : List Setting) (st : Setting) (with_units : Bool)
    (hnd : (reg.map Setting.path).Nodup) (hmem : st ∈ reg) :
    encode_to_str_compact reg with_units
        = String.intercalate "\n"
            ((reg.filterMap (Setting.compactTemplateLine with_units)).map
              (renderLine (toTemplateContext reg)))
    ∧ (st.value.truthy = false → st.path ∉ Category.paths →
        Setting.compactTemplateLine with_units st = none)
    ∧ (st.value.truthy = false → st.path ∈ Category.paths →
        (Setting.compactTemplateLine with_units st).map (renderLine (toTemplateContext reg))
          = some ("[" ++ st.category.value ++ "]"))
    ∧ (∀ cn, st.value.truthy = true → st.compact_name = some cn →
        (Setting.compactTemplateLine with_units st).map (renderLine (toTemplateContext reg))
          = some ("  " ++ cn ++ "=" ++ st.value.pyStr ++ unitSuffix with_units st))
    ∧ (st.value.truthy = true → st.compact_name = none →
        (Setting.compactTemplateLine with_units st).map (renderLine (toTemplateContext reg))
          = some (st.value.pyStr ++ unitSuffix with_units st)) := by
  have hctx : lookupA (toTemplateContext reg) st.path = some st.ctxValue := by
    unfold toTemplateContext
    exact lookup_ctx_path reg [] st hnd hmem
  have hval : st.value.truthy = true → st.ctxValue = st.value.pyStr := by
    intro ht
    simp [Setting.ctxValue, ht]
  refine ⟨rfl, ?_, ?_, ?_, ?_⟩
  · intro hf hnp
    simp [Setting.compactTemplateLine, hf, hnp]
  · intro hf hp
    simp [Setting.compactTemplateLine, hf, hp, renderLine_cons, renderLine_nil,
      renderPiece, Category.placeholder, String.append_empty]
  · intro cn ht hcn
    cases hwu : with_units <;> cases hu : st.unit <;>
      simp [Setting.compactTemplateLine, ht, hcn, hu, Setting.template_string,
        Setting.template_string_with_unit, renderLine_cons, renderLine_nil, renderPiece,
        hctx, hval ht, unitSuffix, String.append_empty, String.append_assoc]
  · intro ht hcn
    cases hwu : with_units <;> cases hu : st.unit <;>
      simp [Setting.compactTemplateLine, ht, hcn, hu, Setting.template_string,
        Setting.template_string_with_unit, renderLine_cons, renderLine_nil, renderPiece,
        hctx, hval ht, unitSuffix, String.append_empty, String.append_assoc]

/-- C3 (witness): the compact lines of the example registry: the truthy
filament name renders as a compact-named line, the unset printer name renders
as the category header. -/
theorem claim_C3_compact_lines_witness :
    ((regEx.map Setting.path).Nodup ∧ stA ∈ regEx ∧ stC ∈ regEx)
    ∧ (Setting.compactTemplateLine true stA).map (renderLine (toTemplateContext regEx))
        = some "  fn=PLA"
    ∧ (Setting.compactTemplateLine true stC).map (renderLine (toTemplateContext regEx))
        = some "[printer]" := by
  have hA := claim_C3_compact_lines regEx stA true (by decide) (by decide)
  have hC := claim_C3_compact_lines regEx stC true (by decide) (by decide)
  refine ⟨⟨by decide, by decide, by decide⟩, ?_, ?_⟩
  · exact (hA.2.2.2.1 "fn" rfl rfl).trans (by decide)
  · exact (hC.2.2.1 rfl (by decide)).trans (by decide)

end PQR
